import Mathlib

/-!
# Transport layer of the OpenWhisk client (`client/client.go`)

A shallow embedding of `CheckResponse`, `ErrorResponse.Error`, `Error.Error`,
`Client.NewRequest`, `Client.Do` and `Client.List`, together with the parts of the
Go standard library these functions call (`encoding/json`, `fmt`, `io`, `net/http`).

Bytes are natural numbers, Go strings that hold text are Lean strings, Go pointers
are `Option`s (`none` is the nil pointer), and a Go `(value, error)` result is a
pair whose error component is an `Option` (`none` is the nil error).
-/

set_option linter.dupNamespace false

namespace client

/-- A byte of a request or response body. -/
abbrev Byte := Nat

/-! ## `encoding/json`: reading a JSON text -/

/-- A JSON value as `encoding/json` sees it. Object members keep their order of
appearance, and duplicate keys are kept: the decoder handles them one by one. -/
inductive Json where
  | null
  | bool (b : Bool)
  | num (lit : List Byte)
  | str (s : String)
  | arr (xs : List Json)
  | obj (kvs : List (String × Json))

/-- Outcome of scanning a JSON construct at the head of the input. `eof` means the
input ended inside the construct, `bad` that a byte cannot continue it. -/
inductive Scan (α : Type) where
  | ok (a : α) (rest : List Byte)
  | eof
  | bad

/-- The four JSON white space bytes (`isSpace` of `scanner.go`). -/
def isSpace (c : Byte) : Bool := c = 32 || c = 9 || c = 13 || c = 10

/-- Drop leading white space. -/
def skipSpace : List Byte → List Byte
  | [] => []
  | c :: cs => if isSpace c then skipSpace cs else c :: cs

def isDigit (c : Byte) : Bool := 48 ≤ c && c ≤ 57

def isHex (c : Byte) : Bool :=
  (48 ≤ c && c ≤ 57) || (97 ≤ c && c ≤ 102) || (65 ≤ c && c ≤ 70)

def hexVal (c : Byte) : Nat :=
  if 48 ≤ c ∧ c ≤ 57 then c - 48
  else if 97 ≤ c ∧ c ≤ 102 then c - 97 + 10
  else if 65 ≤ c ∧ c ≤ 70 then c - 65 + 10
  else 0

/-- Match the bytes of a literal name (`true`, `false`, `null`) after its first byte. -/
def scanLit : List Byte → List Byte → Scan Unit
  | [], input => .ok () input
  | _ :: _, [] => .eof
  | l :: ls, c :: cs => if c = l then scanLit ls cs else .bad

/-- Take the longest run of decimal digits. -/
def takeDigits : List Byte → List Byte × List Byte
  | [] => ([], [])
  | c :: cs =>
    if isDigit c then ((takeDigits cs).1.cons c, (takeDigits cs).2) else ([], c :: cs)

/-- At least one digit, then the longest run (`stateDot`, `stateESign`, `stateE`). -/
def scanDigits1 (input : List Byte) : Scan (List Byte) :=
  match input with
  | [] => .eof
  | c :: _ => if isDigit c then .ok (takeDigits input).1 (takeDigits input).2 else .bad

/-- Optional exponent part of a number. -/
def scanExp (input : List Byte) : Scan (List Byte) :=
  match input with
  | [] => .ok [] []
  | c :: cs =>
    if c = 101 ∨ c = 69 then
      match cs with
      | [] => .eof
      | s :: ss =>
        if s = 43 ∨ s = 45 then
          match scanDigits1 ss with
          | .ok ds rest => .ok (c :: s :: ds) rest
          | .eof => .eof
          | .bad => .bad
        else
          match scanDigits1 cs with
          | .ok ds rest => .ok (c :: ds) rest
          | .eof => .eof
          | .bad => .bad
    else .ok [] input

/-- Optional fraction part, then the optional exponent. -/
def scanFrac (input : List Byte) : Scan (List Byte) :=
  match input with
  | [] => .ok [] []
  | c :: cs =>
    if c = 46 then
      match scanDigits1 cs with
      | .ok ds rest =>
        match scanExp rest with
        | .ok es rest2 => .ok (c :: ds ++ es) rest2
        | .eof => .eof
        | .bad => .bad
      | .eof => .eof
      | .bad => .bad
    else scanExp input

/-- Integer part after an optional minus sign: a single `0`, or a nonzero digit
followed by digits (`state0`, `state1`). -/
def scanInt (input : List Byte) : Scan (List Byte) :=
  match input with
  | [] => .eof
  | c :: cs =>
    if c = 48 then
      match scanFrac cs with
      | .ok fs rest => .ok (c :: fs) rest
      | .eof => .eof
      | .bad => .bad
    else if 49 ≤ c ∧ c ≤ 57 then
      match scanFrac (takeDigits cs).2 with
      | .ok fs rest => .ok (c :: (takeDigits cs).1 ++ fs) rest
      | .eof => .eof
      | .bad => .bad
    else .bad

/-- A JSON number at the head of the input, returned as its literal text. -/
def scanNumber (input : List Byte) : Scan (List Byte) :=
  match input with
  | [] => .eof
  | c :: cs =>
    if c = 45 then
      match scanInt cs with
      | .ok ds rest => .ok (c :: ds) rest
      | .eof => .eof
      | .bad => .bad
    else scanInt input

/-- Where the string scanner is inside a string literal. -/
inductive StrState where
  | plain
  | esc
  | hex (left : Nat)

/-- The scanner inside a string literal (`stateInString`, `stateInStringEsc`,
`stateInStringEscU...`): the input starts after the opening quote; the result is
the raw bytes up to the closing quote and what follows it. -/
def scanStringAux : StrState → List Byte → Scan (List Byte)
  | _, [] => .eof
  | .plain, c :: cs =>
    if c = 34 then .ok [] cs
    else if c = 92 then
      match scanStringAux .esc cs with
      | .ok raw rest => .ok (c :: raw) rest
      | .eof => .eof
      | .bad => .bad
    else if c < 32 then .bad
    else
      match scanStringAux .plain cs with
      | .ok raw rest => .ok (c :: raw) rest
      | .eof => .eof
      | .bad => .bad
  | .esc, c :: cs =>
    if c = 98 ∨ c = 102 ∨ c = 110 ∨ c = 114 ∨ c = 116 ∨ c = 92 ∨ c = 47 ∨ c = 34 then
      match scanStringAux .plain cs with
      | .ok raw rest => .ok (c :: raw) rest
      | .eof => .eof
      | .bad => .bad
    else if c = 117 then
      match scanStringAux (.hex 4) cs with
      | .ok raw rest => .ok (c :: raw) rest
      | .eof => .eof
      | .bad => .bad
    else .bad
  | .hex n, c :: cs =>
    if isHex c then
      match scanStringAux (if n ≤ 1 then .plain else .hex (n - 1)) cs with
      | .ok raw rest => .ok (c :: raw) rest
      | .eof => .eof
      | .bad => .bad
    else .bad

def scanString (input : List Byte) : Scan (List Byte) := scanStringAux .plain input

/-! ## `unicode/utf8` and string unquoting -/

/-- The replacement rune `U+FFFD` (`utf8.RuneError`). -/
def runeError : Nat := 65533

/-- For a leading byte of a multi-byte sequence: its length and the range the
second byte must lie in (`first` and `acceptRanges` of `utf8.go`). -/
def leadInfo (p0 : Byte) : Option (Nat × Nat × Nat) :=
  if 194 ≤ p0 ∧ p0 ≤ 223 then some (2, 128, 191)
  else if p0 = 224 then some (3, 160, 191)
  else if 225 ≤ p0 ∧ p0 ≤ 236 then some (3, 128, 191)
  else if p0 = 237 then some (3, 128, 159)
  else if 238 ≤ p0 ∧ p0 ≤ 239 then some (3, 128, 191)
  else if p0 = 240 then some (4, 144, 191)
  else if 241 ≤ p0 ∧ p0 ≤ 243 then some (4, 128, 191)
  else if p0 = 244 then some (4, 128, 143)
  else none

def isCont (b : Byte) : Bool := 128 ≤ b && b ≤ 191

/-- The rune at the head of a non-empty byte sequence and its width, as
`utf8.DecodeRune` returns them; an invalid or short sequence gives `(U+FFFD, 1)`. -/
def decodeRune (p : List Byte) : Nat × Nat :=
  match p with
  | [] => (runeError, 0)
  | p0 :: t =>
    if p0 < 128 then (p0, 1)
    else
      match leadInfo p0 with
      | none => (runeError, 1)
      | some (sz, lo, hi) =>
        match t with
        | [] => (runeError, 1)
        | b1 :: t1 =>
          if b1 < lo ∨ hi < b1 then (runeError, 1)
          else if sz ≤ 2 then ((p0 % 32) * 64 + b1 % 64, 2)
          else
            match t1 with
            | [] => (runeError, 1)
            | b2 :: t2 =>
              if !isCont b2 then (runeError, 1)
              else if sz ≤ 3 then ((p0 % 16) * 4096 + (b1 % 64) * 64 + b2 % 64, 3)
              else
                match t2 with
                | [] => (runeError, 1)
                | b3 :: _ =>
                  if !isCont b3 then (runeError, 1)
                  else ((p0 % 8) * 262144 + (b1 % 64) * 4096 + (b2 % 64) * 64 + b3 % 64, 4)

/-- Read `\uXXXX` at the head of the input (`getu4` of `decode.go`). -/
def getu4 (s : List Byte) : Option Nat :=
  match s with
  | b :: u :: h1 :: h2 :: h3 :: h4 :: _ =>
    if b = 92 ∧ u = 117 ∧ isHex h1 ∧ isHex h2 ∧ isHex h3 ∧ isHex h4 then
      some (hexVal h1 * 4096 + hexVal h2 * 256 + hexVal h3 * 16 + hexVal h4)
    else none
  | _ => none

/-- Combine a surrogate pair (`utf16.DecodeRune`); `none` when it is not a valid pair. -/
def decodeSurrogates (r1 : Nat) (r2 : Option Nat) : Option Nat :=
  match r2 with
  | none => none
  | some r2 =>
    if 55296 ≤ r1 ∧ r1 < 56320 ∧ 56320 ≤ r2 ∧ r2 < 57344 then
      some ((r1 - 55296) * 1024 + (r2 - 56320) + 65536)
    else none

/-- The byte a single-letter escape stands for. -/
def escByte (e : Byte) : Nat :=
  if e = 98 then 8 else if e = 102 then 12 else if e = 110 then 10
  else if e = 114 then 13 else if e = 116 then 9 else e

/-- Decode the raw bytes of a string literal (`unquote` of `decode.go`): escapes are
replaced, and bytes that are not well-formed UTF-8 become `U+FFFD`. The first
argument counts bytes still to skip because an earlier step consumed them. -/
def unquoteAux : Nat → List Byte → List Char
  | _, [] => []
  | skip + 1, _ :: cs => unquoteAux skip cs
  | 0, c :: cs =>
    if c = 92 then
      match cs with
      | [] => []
      | e :: t =>
        if e = 117 then
          match getu4 (c :: cs) with
          | none => []
          | some rr =>
            if 55296 ≤ rr ∧ rr < 57344 then
              match decodeSurrogates rr (getu4 (t.drop 4)) with
              | some dec => Char.ofNat dec :: unquoteAux 11 cs
              | none => Char.ofNat runeError :: unquoteAux 5 cs
            else Char.ofNat rr :: unquoteAux 5 cs
        else Char.ofNat (escByte e) :: unquoteAux 1 cs
    else if c < 128 then Char.ofNat c :: unquoteAux 0 cs
    else Char.ofNat (decodeRune (c :: cs)).1 :: unquoteAux ((decodeRune (c :: cs)).2 - 1) cs

def unquote (raw : List Byte) : String := String.mk (unquoteAux 0 raw)

/-! ## The value parser -/

/-- The deepest nesting of arrays and objects the scanner accepts
(`maxNestingDepth` of `scanner.go`). -/
def maxNestingDepth : Nat := 10000

mutual
/-- One JSON value at the head of the input (after optional white space), inside
`depth` arrays and objects. -/
def parseValue : Nat → Nat → List Byte → Scan Json
  | 0, _, _ => .bad
  | fuel + 1, depth, input =>
    match skipSpace input with
    | [] => .eof
    | c :: cs =>
      if c = 123 then
        if maxNestingDepth ≤ depth then .bad
        else
          match skipSpace cs with
          | [] => .eof
          | d :: ds =>
            if d = 125 then .ok (.obj []) ds else parseMembers fuel (depth + 1) (d :: ds) []
      else if c = 91 then
        if maxNestingDepth ≤ depth then .bad
        else
          match skipSpace cs with
          | [] => .eof
          | d :: ds =>
            if d = 93 then .ok (.arr []) ds else parseElems fuel (depth + 1) (d :: ds) []
      else if c = 34 then
        match scanString cs with
        | .ok raw rest => .ok (.str (unquote raw)) rest
        | .eof => .eof
        | .bad => .bad
      else if c = 116 then
        match scanLit [114, 117, 101] cs with
        | .ok _ rest => .ok (.bool true) rest
        | .eof => .eof
        | .bad => .bad
      else if c = 102 then
        match scanLit [97, 108, 115, 101] cs with
        | .ok _ rest => .ok (.bool false) rest
        | .eof => .eof
        | .bad => .bad
      else if c = 110 then
        match scanLit [117, 108, 108] cs with
        | .ok _ rest => .ok .null rest
        | .eof => .eof
        | .bad => .bad
      else if c = 45 ∨ isDigit c then
        match scanNumber (c :: cs) with
        | .ok lit rest => .ok (.num lit) rest
        | .eof => .eof
        | .bad => .bad
      else .bad
/-- The elements of an array from the start of an element up to the closing bracket. -/
def parseElems : Nat → Nat → List Byte → List Json → Scan Json
  | 0, _, _, _ => .bad
  | fuel + 1, depth, input, acc =>
    match parseValue fuel depth input with
    | .ok v rest =>
      match skipSpace rest with
      | [] => .eof
      | e :: es =>
        if e = 44 then parseElems fuel depth es (acc ++ [v])
        else if e = 93 then .ok (.arr (acc ++ [v])) es
        else .bad
    | .eof => .eof
    | .bad => .bad
/-- The members of an object from the start of a key up to the closing brace. -/
def parseMembers : Nat → Nat → List Byte → List (String × Json) → Scan Json
  | 0, _, _, _ => .bad
  | fuel + 1, depth, input, acc =>
    match skipSpace input with
    | [] => .eof
    | c :: cs =>
      if c = 34 then
        match scanString cs with
        | .ok raw rest =>
          match skipSpace rest with
          | [] => .eof
          | d :: ds =>
            if d = 58 then
              match parseValue fuel depth ds with
              | .ok v rest2 =>
                match skipSpace rest2 with
                | [] => .eof
                | e :: es =>
                  if e = 44 then parseMembers fuel depth es (acc ++ [(unquote raw, v)])
                  else if e = 125 then .ok (.obj (acc ++ [(unquote raw, v)])) es
                  else .bad
              | .eof => .eof
              | .bad => .bad
            else .bad
        | .eof => .eof
        | .bad => .bad
      else .bad
end

/-- Fuel that is enough for any input: every second call consumes a byte. -/
def fuelFor (data : List Byte) : Nat := 2 * data.length + 2

/-- The single JSON value a whole text consists of, or `none` when the text is not
valid JSON (the `checkValid` pass `json.Unmarshal` runs before it touches its target). -/
def parseJSON (data : List Byte) : Option Json :=
  match parseValue (fuelFor data) 0 data with
  | .ok v rest => if skipSpace rest = [] then some v else none
  | .eof => none
  | .bad => none

/-- The bytes of an ASCII string. -/
def bytes (s : String) : List Byte := s.toList.map Char.toNat

/-! ## Data model of `client.go` and of the `net/http` values it handles -/

/-- `Error` of client.go: one field-level sub-error of an API failure. -/
structure Error where
  Resource : String
  Field : String
  Code : String
deriving DecidableEq, Repr

/-- A response body (`io.ReadCloser`): the bytes it still has to deliver, the error
its reader reports once they are delivered (`none` is a clean `io.EOF`), and whether
`Close` has been called. -/
structure Body where
  data : List Byte
  fail : Option String
  closed : Bool
deriving DecidableEq, Repr

/-- The fields of `http.Request` that client.go reads or sets. `U` is `url.URL`. -/
structure Request (U : Type) where
  Method : String
  URL : Option U
  Body : Option (List Byte)
deriving DecidableEq, Repr

/-- The fields of `http.Response` that client.go reads. The transport always supplies
a body, so `Body` is not optional. -/
structure Response (U : Type) where
  StatusCode : Int
  Request : Option (Request U)
  Body : Body
deriving DecidableEq, Repr

/-- `ErrorResponse` of client.go. `Response` is a pointer: `none` is nil, `some r` is
the response it points to, as it stands when the error is returned. -/
structure ErrorResponse (U : Type) where
  Response : Option (Response U)
  Message : String
  Errors : List Error
deriving DecidableEq, Repr

/-- Go error values that occur in client.go. -/
inductive GoError (U : Type) where
  | EOF
  | ErrUnexpectedEOF
  | SyntaxError
  | read (msg : String)
  | api (e : ErrorResponse U)
  | other (msg : String)
deriving DecidableEq, Repr

/-- The standard library as `CheckResponse`, `Do` and `NewRequest` use it, for a type
`U` of URLs: package `net/url` (see `netURL` for `U = URL`), and how `encoding/json`
fills an `http.Response` by reflection.

`UnmarshalResponse j p` decodes the non-null JSON value `j` into the `http.Response`
that a pointer refers to (`p = none`: the pointer was nil and a zero response is
allocated first); the flag says that a custom unmarshaler deep inside
(`time.Time`, `big.Int`) failed, which ends the whole `Unmarshal` call. -/
structure Lib (U : Type) where
  Parse : String → Except (GoError U) U
  ResolveReference : U → U → U
  String : U → String
  removeEmptyPort : U → U
  UnmarshalResponse : Json → Option (Response U) → Response U × Bool

/-! ## `net/url` -/

/-- `url.Userinfo`. -/
structure Userinfo where
  username : String
  password : String
  passwordSet : Bool
deriving DecidableEq, Repr

/-- `url.URL`, field by field. -/
structure URL where
  Scheme : String
  Opaque : String
  User : Option Userinfo
  Host : String
  Path : String
  RawPath : String
  OmitHost : Bool
  ForceQuery : Bool
  RawQuery : String
  Fragment : String
  RawFragment : String
deriving DecidableEq, Repr

/-- What of `net/url` is left abstract: parsing, printing, and the three helpers that
deal with percent-encoding and dot segments. `storePath p` is what `setPath` stores
for the path string `p`, the decoded path and the raw path, or `none` when `p` is
not validly escaped. -/
structure URLPrims where
  Parse : String → Except (GoError URL) URL
  EscapedPath : URL → String
  resolvePath : String → String → String
  storePath : String → Option (String × String)
  String : URL → String

/-- `(*URL).setPath`, whose error `ResolveReference` ignores. -/
def setPath (p : URLPrims) (u : URL) (path : String) : URL :=
  match p.storePath path with
  | none => u
  | some (decoded, raw) => { u with Path := decoded, RawPath := raw }

/-- `(*URL).ResolveReference` of `net/url`: `u` is the base, `ref` the reference. -/
def ResolveReference (p : URLPrims) (u ref : URL) : URL :=
  if ref.Scheme ≠ "" ∨ ref.Host ≠ "" ∨ ref.User ≠ none then
    setPath p { ref with Scheme := if ref.Scheme = "" then u.Scheme else ref.Scheme }
      (p.resolvePath (p.EscapedPath ref) "")
  else if ref.Opaque ≠ "" then
    { ref with Scheme := u.Scheme, User := none, Host := "", Path := "" }
  else if ref.Path = "" ∧ u.Opaque ≠ "" then
    { ref with
      Scheme := u.Scheme
      RawQuery := if ref.ForceQuery = false ∧ ref.RawQuery = "" then u.RawQuery else ref.RawQuery
      Fragment := if ref.ForceQuery = false ∧ ref.RawQuery = "" ∧ ref.Fragment = ""
        then u.Fragment else ref.Fragment
      RawFragment := if ref.ForceQuery = false ∧ ref.RawQuery = "" ∧ ref.Fragment = ""
        then u.RawFragment else ref.RawFragment
      Opaque := u.Opaque, User := none, Host := "", Path := "" }
  else
    setPath p
      { ref with
        Scheme := u.Scheme
        RawQuery := if ref.Path = "" ∧ ref.ForceQuery = false ∧ ref.RawQuery = ""
          then u.RawQuery else ref.RawQuery
        Fragment := if ref.Path = "" ∧ ref.ForceQuery = false ∧ ref.RawQuery = ""
            ∧ ref.Fragment = "" then u.Fragment else ref.Fragment
        RawFragment := if ref.Path = "" ∧ ref.ForceQuery = false ∧ ref.RawQuery = ""
            ∧ ref.Fragment = "" then u.RawFragment else ref.RawFragment
        Host := u.Host, User := u.User }
      (p.resolvePath (p.EscapedPath u) (p.EscapedPath ref))

/-- Whether the last colon of a host comes after its last closing bracket
(`hasPort` of `net/http`). -/
def hasPort (host : List Char) : Bool :=
  match host.reverse.indexOf? (Char.ofNat 58), host.reverse.indexOf? (Char.ofNat 93) with
  | none, _ => false
  | some _, none => true
  | some i, some j => i < j

/-- `removeEmptyPort` of `net/http`: a host that ends in a colon with no port after
it loses that colon. -/
def removeEmptyPort (host : String) : String :=
  if hasPort host.toList ∧ host.toList.getLast? = some (Char.ofNat 58) then
    String.mk host.toList.dropLast
  else host

/-- Package `net/url` as the library `NewRequest` and `http.NewRequest` use, with
the decoder of `http.Response` values as a further parameter. -/
def netURL (p : URLPrims) (um : Json → Option (Response URL) → Response URL × Bool) :
    Lib URL where
  Parse := p.Parse
  ResolveReference := ResolveReference p
  String := p.String
  removeEmptyPort := fun u => { u with Host := removeEmptyPort u.Host }
  UnmarshalResponse := um

/-! ## `encoding/json`: decoding into `*ErrorResponse` -/

/-- Simple case folding restricted to what can match an ASCII letter: the two cases
of a letter, `U+017F` (long s) for `s` and `U+212A` (Kelvin sign) for `k`. -/
def foldRune (c : Char) : Char :=
  if 65 ≤ c.toNat ∧ c.toNat ≤ 90 then Char.ofNat (c.toNat + 32)
  else if c.toNat = 383 then Char.ofNat 115
  else if c.toNat = 8490 then Char.ofNat 107
  else c

/-- Whether a key matches an (ASCII) field name up to case (`bytes.EqualFold`). -/
def equalFold (name key : String) : Bool :=
  name.toList.map foldRune == key.toList.map foldRune

/-- Field lookup of `decodeState.object`: an exact match wins, otherwise the first
field whose name matches up to case. -/
def findField {F : Type} (fields : List (String × F)) (key : String) : Option F :=
  match fields.find? (fun f => f.1 == key) with
  | some f => some f.2
  | none =>
    match fields.find? (fun f => equalFold f.1 key) with
    | some f => some f.2
    | none => none

/-- Store a JSON value into a Go `string`: a string is stored, null leaves the
field alone, anything else is a type error that leaves it alone too. -/
def storeString (cur : String) : Json → String
  | .str s => s
  | _ => cur

inductive ErrorField where
  | Resource
  | Field
  | Code

/-- The JSON names of the fields of `Error` (its struct tags). -/
def errorFields : List (String × ErrorField) :=
  [("resource", .Resource), ("field", .Field), ("code", .Code)]

/-- Decode one object member into an `Error`. -/
def Error.setKey (e : Error) (kv : String × Json) : Error :=
  match findField errorFields kv.1 with
  | some .Resource => { e with Resource := storeString e.Resource kv.2 }
  | some .Field => { e with Field := storeString e.Field kv.2 }
  | some .Code => { e with Code := storeString e.Code kv.2 }
  | none => e

/-- Decode a JSON value into an existing `Error`: the members of an object are
stored one by one, in order; other values leave it as it is. -/
def decodeError (e : Error) : Json → Error
  | .obj kvs => kvs.foldl Error.setKey e
  | _ => e

/-- Decode the elements of a JSON array one by one: element `i` is decoded into
what the backing array of the slice holds at `i`, or into a zero element when the
array has never been written that far. -/
def decodeErrorSlice (backing : List Error) : List Json → List Error
  | [] => []
  | j :: js => decodeError (backing.headD ⟨"", "", ""⟩) j :: decodeErrorSlice backing.tail js

/-- Store a JSON value into a `[]Error` (`decodeState.array`), given the elements of
the slice and the stale elements that follow them in its backing array (left by an
earlier, longer decode). An array is decoded element by element into the backing
array and the slice ends up as long as the array, an empty array gives a fresh
empty slice, null gives the nil slice, anything else is a type error that leaves
the slice alone. -/
def storeErrors (live spare : List Error) : Json → List Error × List Error
  | .arr [] => ([], [])
  | .arr xs => (decodeErrorSlice (live ++ spare) xs, (live ++ spare).drop xs.length)
  | .null => ([], [])
  | _ => (live, spare)

/-- What the field `ErrorResponse.Response` points to during decoding. -/
inductive RespPtr (U : Type) where
  | nil
  | orig
  | fresh (r : Response U)

/-- The `*ErrorResponse` that `CheckResponse` hands to `json.Unmarshal`, with the
response object `obj` its `Response` field refers to at the start (`ptr = orig`),
and the stale elements `spare` behind `Errors` in the backing array of the slice. -/
structure Decoding (U : Type) where
  obj : Response U
  ptr : RespPtr U
  Message : String
  Errors : List Error
  spare : List Error

inductive ResponseField where
  | Response
  | Message
  | Errors

/-- The JSON names of the fields of `ErrorResponse`: `Response` has no struct tag
and is exported, so it is decoded under its Go name. -/
def responseFields : List (String × ResponseField) :=
  [("Response", .Response), ("message", .Message), ("errors", .Errors)]

/-- Store a JSON value into the pointer field `Response`: null sets the pointer to
nil; any other value is decoded into the response it points to, after allocating
one if it is nil. -/
def storeResponse {U : Type} (lib : Lib U) (st : Decoding U) (j : Json) : Decoding U × Bool :=
  match j with
  | .null => ({ st with ptr := .nil }, false)
  | _ =>
    match st.ptr with
    | .nil => ({ st with ptr := .fresh (lib.UnmarshalResponse j none).1 },
        (lib.UnmarshalResponse j none).2)
    | .orig => ({ st with obj := (lib.UnmarshalResponse j (some st.obj)).1 },
        (lib.UnmarshalResponse j (some st.obj)).2)
    | .fresh r => ({ st with ptr := .fresh (lib.UnmarshalResponse j (some r)).1 },
        (lib.UnmarshalResponse j (some r)).2)

/-- Decode one member of the top-level object; the flag stops decoding once set. -/
def Decoding.setKey {U : Type} (lib : Lib U) (s : Decoding U × Bool) (kv : String × Json) :
    Decoding U × Bool :=
  if s.2 then s
  else
    match findField responseFields kv.1 with
    | some .Response => storeResponse lib s.1 kv.2
    | some .Message => ({ s.1 with Message := storeString s.1.Message kv.2 }, false)
    | some .Errors =>
      ({ s.1 with Errors := (storeErrors s.1.Errors s.1.spare kv.2).1
                  spare := (storeErrors s.1.Errors s.1.spare kv.2).2 }, false)
    | none => s

/-- The effect of `json.Unmarshal(data, errorResponse)` on its target. Invalid JSON is
rejected before anything is stored; a valid value that is not an object stores
nothing. The error `Unmarshal` returns is not computed: its caller drops it. -/
def Unmarshal {U : Type} (lib : Lib U) (data : List Byte) (st : Decoding U) : Decoding U :=
  match parseJSON data with
  | some (.obj kvs) => (kvs.foldl (Decoding.setKey lib) (st, false)).1
  | _ => st

/-- The `ErrorResponse` value once decoding is over. -/
def Decoding.toErrorResponse {U : Type} (st : Decoding U) : ErrorResponse U :=
  { Response := match st.ptr with
      | .nil => none
      | .orig => some st.obj
      | .fresh r => some r
    Message := st.Message
    Errors := st.Errors }

/-! ## `client.go` -/

/-- The result of `ioutil.ReadAll`: the bytes read (never a nil slice), the error if
the reader failed, and the body after the read. -/
def ReadAll (b : Body) : Option (List Byte) × Option String × Body :=
  (some b.data, b.fail, { b with data := [] })

/-- `CheckResponse` of client.go. Returns the response object as the call leaves it
and the error: `none` is the nil error, `some e` the `*ErrorResponse`. -/
def CheckResponse {U : Type} (lib : Lib U) (r : Response U) :
    Response U × Option (ErrorResponse U) :=
  if 200 ≤ r.StatusCode ∧ r.StatusCode ≤ 299 then (r, none)
  else
    let errorResponse : Decoding U :=
      { obj := { r with Body := (ReadAll r.Body).2.2 }, ptr := .orig, Message := "", Errors := [],
        spare := [] }
    match (ReadAll r.Body).1, (ReadAll r.Body).2.1 with
    | some data, none =>
      ((Unmarshal lib data errorResponse).obj, some (Unmarshal lib data errorResponse).toErrorResponse)
    | _, _ => (errorResponse.obj, some errorResponse.toErrorResponse)

/-- `%+v` of one `Error` value (a struct without a `String` or `Error` method on
the value type). -/
def fmtError (e : Error) : String :=
  "\x7bResource:" ++ e.Resource ++ " Field:" ++ e.Field ++ " Code:" ++ e.Code ++ "\x7d"

/-- `%+v` of a `[]Error`. -/
def fmtErrors (es : List Error) : String :=
  "[" ++ " ".intercalate (es.map fmtError) ++ "]"

/-- `%v` of a `*url.URL`: its `String()`, or `<nil>` for the nil pointer. -/
def fmtURL {U : Type} (lib : Lib U) : Option U → String
  | none => "<nil>"
  | some u => lib.String u

/-- `%d` of an `int`. -/
def fmtInt (i : Int) : String := toString i

/-- `(*ErrorResponse).Error` of client.go; `none` is the nil-pointer panic of
`r.Response.Request.Method` when there is no response or no request. -/
def ErrorResponse.Error {U : Type} (lib : Lib U) (r : ErrorResponse U) : Option String :=
  match r.Response with
  | none => none
  | some resp =>
    match resp.Request with
    | none => none
    | some req =>
      some (req.Method ++ " " ++ fmtURL lib req.URL ++ ": " ++ fmtInt resp.StatusCode ++ " "
        ++ r.Message ++ " " ++ fmtErrors r.Errors)

/-- `(*Error).Error` of client.go. -/
def Error.Error (e : Error) : String :=
  e.Code ++ " error caused by " ++ e.Field ++ " field on " ++ e.Resource ++ " resource"

/-- `validMethod` of `net/http`: a non-empty sequence of HTTP token characters. -/
def isTokenRune (c : Char) : Bool :=
  (48 ≤ c.toNat && c.toNat ≤ 57) || (65 ≤ c.toNat && c.toNat ≤ 90)
    || (97 ≤ c.toNat && c.toNat ≤ 122)
    || [33, 35, 36, 37, 38, 39, 42, 43, 45, 46, 94, 95, 96, 124, 126].contains c.toNat

def validMethod (method : String) : Bool :=
  0 < method.length && method.toList.all isTokenRune

/-- `http.NewRequest`: an empty method means `GET`, the method must be a token, the
URL string is parsed again, and the body reader is attached when there is one. The
text of the invalid-method error, which quotes the method, is not modelled. -/
def httpNewRequest {U : Type} (lib : Lib U) (method urlStr : String) (body : Option (List Byte)) :
    Except (GoError U) (Request U) :=
  if validMethod (if method = "" then "GET" else method) then
    match lib.Parse urlStr with
    | .error e => .error e
    | .ok u =>
      .ok { Method := if method = "" then "GET" else method
            URL := some (lib.removeEmptyPort u)
            Body := body }
  else .error (.other "net/http: invalid method")

/-- What `json.NewEncoder(buf).Encode(body)` leaves in the buffer: the JSON
encoding `marshal` gives, followed by a newline; nothing when encoding fails. -/
def Encode {U W : Type} (marshal : W → Except (GoError U) (List Byte)) (body : W) :
    Except (GoError U) (List Byte) :=
  match marshal body with
  | .error e => .error e
  | .ok b => .ok (b ++ [10])

/-- The `Client` of client.go. `client` is what `c.client.Do` does with a request.
`BaseURL` is set by `NewClient` and modelled as always present. Each service is
represented by its `List` operation, acting on the state `σ` of the remote side;
the `Sdk` and `Package` services are not used by this file. -/
structure Client (U σ A T R V : Type) where
  client : Request U → Except (GoError U) (Response U)
  BaseURL : U
  Trigger : σ → (List T × Option (GoError U)) × σ
  Action : σ → (List A × Option (GoError U)) × σ
  Rule : σ → (List R × Option (GoError U)) × σ
  Activation : σ → (List V × Option (GoError U)) × σ

section
variable {U σ A T R V : Type}

/-- The buffer `NewRequest` passes on as the request body: the nil reader for a nil
body, otherwise a buffer holding what the encoder wrote. -/
def encodeBody {W : Type} (marshal : W → Except (GoError U) (List Byte)) (body : Option W) :
    Except (GoError U) (Option (List Byte)) :=
  match body with
  | none => .ok none
  | some b =>
    match Encode marshal b with
    | .error err => .error err
    | .ok bs => .ok (some bs)

/-- `(*Client).NewRequest` of client.go, as the pair `(request, error)` it returns.
`W` is the type of request body values; `body = none` is the nil interface. -/
def Client.NewRequest {W : Type} (lib : Lib U) (marshal : W → Except (GoError U) (List Byte))
    (c : Client U σ A T R V) (method urlStr : String) (body : Option W) :
    Option (Request U) × Option (GoError U) :=
  match lib.Parse urlStr with
  | .error err => (none, some err)
  | .ok rel =>
    match encodeBody marshal body with
    | .error err => (none, some err)
    | .ok buf =>
      match httpNewRequest lib method (lib.String (lib.ResolveReference c.BaseURL rel)) buf with
      | .error err => (none, some err)
      | .ok req => (some req, none)

/-- An `io.Writer`: the bytes it holds and how many more it accepts before `Write`
fails (`none`: it accepts every write, like a `bytes.Buffer`). -/
structure Writer where
  held : List Byte
  room : Option Nat
deriving DecidableEq, Repr

/-- `io.Copy(w, body)`: the bytes the body delivers are written to the writer, in
order, until the body ends or fails or a `Write` fails or is short. Returns the
writer as the copy leaves it, the number of bytes written and the error. The
result does not depend on how the bytes are split into reads. -/
def Copy (w : Writer) (b : Body) : Writer × Nat × Option String :=
  match w.room with
  | none => ({ w with held := w.held ++ b.data }, b.data.length, b.fail)
  | some k =>
    if b.data.length ≤ k then
      ({ held := w.held ++ b.data, room := some (k - b.data.length) }, b.data.length, b.fail)
    else ({ held := w.held ++ b.data.take k, room := some 0 }, k, some "write failed")

/-- The target `v interface{}` of `Do`: nil, an `io.Writer`, or any other value, of
a type `X`. -/
inductive Target (X : Type) where
  | nil
  | writer (w : Writer)
  | value (x : X)
deriving DecidableEq, Repr

/-- Whether the decoder needs to see what follows a value to know it has ended:
true for literals, numbers and strings, false for arrays and objects. -/
def Json.needsLookahead : Json → Bool
  | .arr _ => false
  | .obj _ => false
  | _ => true

/-- `json.NewDecoder(body).Decode(v)`: read the first JSON value of the stream and
hand it to `unmarshal`, which stores it into the target by reflection. No value
before the end of the stream is `io.EOF`; what follows the value is not looked at. -/
def Decode {X : Type} (unmarshal : Json → X → X × Option (GoError U)) (b : Body) (x : X) :
    X × Option (GoError U) :=
  match skipSpace b.data with
  | [] => (x, some (match b.fail with
      | none => .EOF
      | some m => .read m))
  | _ :: _ =>
    match parseValue (fuelFor b.data) 0 b.data with
    | .ok j rest =>
      match b.fail with
      | none => unmarshal j x
      | some m => if j.needsLookahead ∧ rest = [] then (x, some (.read m)) else unmarshal j x
    | .eof => (x, some (match b.fail with
        | none => .ErrUnexpectedEOF
        | some m => .read m))
    | .bad => (x, some .SyntaxError)

/-- The body once it has been read to its end. -/
def Body.drain (b : Body) : Body := { b with data := [] }

/-- The response after the deferred `resp.Body.Close()`. -/
def Response.close (r : Response U) : Response U :=
  { r with Body := { r.Body with closed := true } }

/-- `(*Client).Do` of client.go, as the triple of the response returned, the error
returned and the target as the call leaves it. `Do` drops both results of
`io.Copy`; after copying or decoding the body counts as read to its end; the
deferred `Close` runs on every path that has a response. -/
def Client.Do {X : Type} (lib : Lib U) (unmarshal : Json → X → X × Option (GoError U))
    (c : Client U σ A T R V) (req : Request U) (v : Target X) :
    Option (Response U) × Option (GoError U) × Target X :=
  match c.client req with
  | .error err => (none, some err, v)
  | .ok resp =>
    match CheckResponse lib resp with
    | (resp, some e) => (some resp.close, some (.api e), v)
    | (resp, none) =>
      match v with
      | .nil => (some resp.close, none, .nil)
      | .writer w =>
        (some { resp with Body := resp.Body.drain }.close, none, .writer (Copy w resp.Body).1)
      | .value x =>
        (some { resp with Body := resp.Body.drain }.close,
          (match (Decode unmarshal resp.Body x).2 with
            | some .EOF => none
            | err => err),
          .value (Decode unmarshal resp.Body x).1)

/-- The four listings `List` can invoke. -/
inductive Call where
  | Action
  | Trigger
  | Rule
  | Activation
deriving DecidableEq, Repr

/-- What `List` returns (its five named results), with the state of the remote side
after the call and the listings that were invoked, in order. -/
structure Listing (U σ A T R V : Type) where
  actions : List A
  triggers : List T
  rules : List R
  activations : List V
  err : Option (GoError U)
  world : σ
  calls : List Call

/-- `(*Client).List` of client.go. Named results that have not been assigned are nil
slices. -/
def Client.List (c : Client U σ A T R V) (s : σ) : Listing U σ A T R V :=
  match c.Action s with
  | ((actions, some err), s1) =>
    { actions := actions, triggers := [], rules := [], activations := [], err := some err,
      world := s1, calls := [.Action] }
  | ((actions, none), s1) =>
    match c.Trigger s1 with
    | ((triggers, some err), s2) =>
      { actions := actions, triggers := triggers, rules := [], activations := [],
        err := some err, world := s2, calls := [.Action, .Trigger] }
    | ((triggers, none), s2) =>
      match c.Rule s2 with
      | ((rules, some err), s3) =>
        { actions := actions, triggers := triggers, rules := rules, activations := [],
          err := some err, world := s3, calls := [.Action, .Trigger, .Rule] }
      | ((rules, none), s3) =>
        match c.Activation s3 with
        | ((activations, err), s4) =>
          { actions := actions, triggers := triggers, rules := rules,
            activations := activations, err := err, world := s4,
            calls := [.Action, .Trigger, .Rule, .Activation] }

end

/-! ## Values used to state and instantiate the theorems -/

/-- The error shape of one sub-error: an object with the members `resource`,
`field` and `code`, in this order. -/
def errorJson (e : Error) : Json :=
  .obj [("resource", .str e.Resource), ("field", .str e.Field), ("code", .str e.Code)]

/-- The error shape of a failure body: `message`, then `errors`. -/
def errorShape (m : String) (es : List Error) : Json :=
  .obj [("message", .str m), ("errors", .arr (es.map errorJson))]

/-- Whether a status code counts as success. -/
def isSuccess (code : Int) : Prop := 200 ≤ code ∧ code ≤ 299

instance (code : Int) : Decidable (isSuccess code) := by
  unfold isSuccess
  infer_instance

/-- An instance of the library for the theorems in which URLs are only carried
along: a URL is its own string form; the response decoder stores nothing. -/
def textLib : Lib String where
  Parse := fun s => .ok s
  ResolveReference := fun base ref => base ++ ref
  String := fun u => u
  removeEmptyPort := fun u => u
  UnmarshalResponse := fun _ p => (p.getD ⟨0, none, ⟨[], none, false⟩⟩, false)

/-- A request `GET https://whisk.com/actions`. -/
def getActions : Request String :=
  { Method := "GET", URL := some "https://whisk.com/actions", Body := none }

/-- A response to `getActions` with the given status and body text. -/
def respond (code : Int) (body : String) : Response String :=
  { StatusCode := code, Request := some getActions,
    Body := { data := bytes body, fail := none, closed := false } }

/-- The failure body of the structured-failure scenario. -/
def notFoundBody : String :=
  "\x7b\"message\":\"not found\",\"errors\":[\x7b\"resource\":\"action\",\"field\":\"name\",\"code\":\"missing\"\x7d]\x7d"

/-- A decode target of type `string`: a JSON string is stored, anything else is a
type error. -/
def storeText (j : Json) (x : String) : String × Option (GoError String) :=
  match j with
  | .str s => (s, none)
  | _ => (x, some (.other "json: cannot unmarshal into Go value of type string"))

/-- A request body encoder for values of type `string` without special characters. -/
def marshalText (s : String) : Except (GoError String) (List Byte) :=
  .ok (bytes ("\"" ++ s ++ "\""))

/-- A service listing that records its call in the state of the remote side and
returns a fixed result. -/
def listing {E : Type} (name : Call) (result : List E × Option (GoError String)) :
    List Call → (List E × Option (GoError String)) × List Call :=
  fun log => (result, log ++ [name])

/-- A client whose transport answers every request with `resp`, whose action
listing gives one action and whose trigger listing fails. -/
def demoClient (resp : Response String) : Client String (List Call) String String String String where
  client := fun _ => .ok resp
  BaseURL := "https://whisk.com"
  Action := listing .Action (["hello"], none)
  Trigger := listing .Trigger ([], some (.other "triggers unavailable"))
  Rule := listing .Rule (["rule"], none)
  Activation := listing .Activation (["activation"], none)

/-! ### `net/url` on plain URLs

An instance of the abstract part of `net/url` for URLs made of letters, digits
and `- . _ ~ / : ? #` only, with at most one colon in the host: on these no
percent-encoding takes place. Everything else is rejected by `plainParse`. -/

def isPlain (c : Char) : Bool :=
  c.isAlphanum || [45, 46, 95, 126, 47, 58, 63, 35].contains c.toNat

/-- `strings.Cut` at a single character: what stands before its first occurrence,
what follows it, and whether it occurs. -/
def cut (sep : Char) : List Char → List Char × List Char × Bool
  | [] => ([], [], false)
  | c :: cs =>
    if c = sep then ([], cs, true) else (c :: (cut sep cs).1, (cut sep cs).2.1, (cut sep cs).2.2)

/-- `getScheme` of `net/url`: the scheme and what follows its colon, or no scheme and
the whole text; `none` is the error of a text that starts with a colon. -/
def getScheme (raw : List Char) (atStart : Bool) (acc : List Char) :
    List Char → Option (List Char × List Char)
  | [] => some ([], raw)
  | c :: cs =>
    if c.isAlpha then getScheme raw false (acc ++ [c]) cs
    else if c.isDigit ∨ c = '+' ∨ c = '-' ∨ c = '.' then
      if atStart then some ([], raw) else getScheme raw false (acc ++ [c]) cs
    else if c = ':' then
      if atStart then none else some (acc, cs)
    else some ([], raw)

/-- The URL without authority, path or fragment that the parser starts from. -/
def emptyURL : URL :=
  { Scheme := "", Opaque := "", User := none, Host := "", Path := "", RawPath := "",
    OmitHost := false, ForceQuery := false, RawQuery := "", Fragment := "", RawFragment := "" }

/-- `url.Parse` on plain URLs. -/
def plainParse (raw : String) : Except (GoError URL) URL :=
  if raw.toList.all isPlain = false ∨ (cut '#' raw.toList).2.1.contains '#' then
    .error (.other "not a plain URL")
  else
    match getScheme (cut '#' raw.toList).1 true [] (cut '#' raw.toList).1 with
    | none => .error (.other "missing protocol scheme")
    | some (scheme, rest) =>
      let force : Bool := rest.getLast? = some '?' ∧ rest.count '?' = 1
      let path := if force then rest.dropLast else (cut '?' rest).1
      let url : URL :=
        { emptyURL with
          Scheme := String.mk (scheme.map Char.toLower)
          ForceQuery := force
          RawQuery := if force then "" else String.mk (cut '?' rest).2.1
          Fragment := String.mk (cut '#' raw.toList).2.1 }
      if path.head? ≠ some '/' then
        if scheme ≠ [] then .ok { url with Opaque := String.mk path }
        else if (cut '/' path).1.contains ':' then
          .error (.other "first path segment in URL cannot contain colon")
        else .ok { url with Path := String.mk path }
      else if (scheme ≠ [] ∨ path.take 3 ≠ ['/', '/', '/']) ∧ path.take 2 = ['/', '/'] then
        let authority := (cut '/' (path.drop 2)).1
        if 1 < authority.count ':' then .error (.other "not a plain URL")
        else if (cut ':' authority).2.1.all Char.isDigit = false then
          .error (.other "invalid port after host")
        else
          .ok { url with Host := String.mk authority
                         Path := String.mk (path.drop (2 + authority.length)) }
      else .ok { url with Path := String.mk path, OmitHost := scheme ≠ [] }

/-- `(*URL).EscapedPath` where nothing needs escaping. -/
def plainEscapedPath (u : URL) : String := if u.RawPath ≠ "" then u.RawPath else u.Path

/-- `(*URL).String` where nothing needs escaping. -/
def plainString (u : URL) : String :=
  let scheme := if u.Scheme ≠ "" then u.Scheme ++ ":" else ""
  let user := match u.User with
    | none => ""
    | some ui => ui.username ++ (if ui.passwordSet then ":" ++ ui.password else "") ++ "@"
  let authority :=
    if u.Scheme ≠ "" ∨ u.Host ≠ "" ∨ u.User ≠ none then
      if u.OmitHost = true ∧ u.Host = "" ∧ u.User = none then ""
      else (if u.Host ≠ "" ∨ u.Path ≠ "" ∨ u.User ≠ none then "//" else "") ++ user ++ u.Host
    else ""
  let path := plainEscapedPath u
  let slash := if path ≠ "" ∧ path.toList.head? ≠ some '/' ∧ u.Host ≠ "" then "/" else ""
  let dot := if scheme ++ authority ++ slash = "" ∧ (cut '/' path.toList).1.contains ':'
    then "./" else ""
  let tail := (if u.ForceQuery = true ∨ u.RawQuery ≠ "" then "?" ++ u.RawQuery else "")
    ++ (if u.Fragment ≠ "" then "#" ++ (if u.RawFragment ≠ "" then u.RawFragment else u.Fragment)
        else "")
  if u.Opaque ≠ "" then scheme ++ u.Opaque ++ tail
  else scheme ++ authority ++ slash ++ dot ++ path ++ tail

/-- `strings.Split` at the slash. -/
def splitSlash : List Char → List (List Char)
  | [] => [[]]
  | c :: cs =>
    if c = '/' then [] :: splitSlash cs
    else
      match splitSlash cs with
      | [] => [[c]]
      | seg :: segs => (c :: seg) :: segs

/-- One round of the loop of `resolvePath`: the text built so far and the flag
`first`, updated for the next path element. -/
def resolveElem (st : List Char × Bool) (elem : List Char) : List Char × Bool :=
  if elem = ['.'] then (st.1, false)
  else if elem = ['.', '.'] then
    match (st.1.drop 1).reverse.indexOf? '/' with
    | none => (['/'], true)
    | some i => ('/' :: (st.1.drop 1).take ((st.1.drop 1).length - 1 - i), st.2)
  else ((if st.2 then st.1 else st.1 ++ ['/']) ++ elem, false)

/-- `resolvePath` of `net/url`: the reference path merged into the base path, dot
segments removed. -/
def plainResolvePath (base ref : String) : String :=
  let full : List Char :=
    if ref = "" then base.toList
    else if ref.toList.head? ≠ some '/' then
      (match base.toList.reverse.indexOf? '/' with
        | none => []
        | some i => base.toList.take (base.length - i)) ++ ref.toList
    else ref.toList
  if full = [] then ""
  else
    let r := ((splitSlash full).foldl resolveElem (['/'], true)).1
      ++ (if (splitSlash full).getLast? = some ['.'] ∨ (splitSlash full).getLast? = some ['.', '.']
          then ['/'] else [])
    String.mk (if 1 < r.length ∧ (r.drop 1).head? = some '/' then r.drop 1 else r)

/-- The abstract part of `net/url`, on plain URLs. -/
def plainURL : URLPrims where
  Parse := plainParse
  EscapedPath := plainEscapedPath
  resolvePath := plainResolvePath
  storePath := fun path => some (path, "")
  String := plainString

/-- Package `net/url` on plain URLs; the response decoder stores nothing. -/
def plainLib : Lib URL :=
  netURL plainURL (fun _ r => (r.getD ⟨0, none, ⟨[], none, false⟩⟩, false))

/-- The base URL `https://whisk.com`, with a path and a host that can be chosen. -/
def whisk (host path : String) : URL := { emptyURL with Scheme := "https", Host := host, Path := path }

/-- A client with the given base URL whose transport is never used. -/
def urlClient (base : URL) : Client URL Unit Unit Unit Unit Unit where
  client := fun _ => .error (.other "no transport")
  BaseURL := base
  Action := fun s => (([], none), s)
  Trigger := fun s => (([], none), s)
  Rule := fun s => (([], none), s)
  Activation := fun s => (([], none), s)

/-- `json.Marshal` on values of type `string` without special characters. -/
def marshalPlain (s : String) : Except (GoError URL) (List Byte) :=
  .ok (bytes ("\"" ++ s ++ "\""))

/-! ## The parser consumes its input and never runs out of fuel -/

theorem skipSpace_length (l : List Byte) : (skipSpace l).length ≤ l.length := by
  induction l with
  | nil => simp [skipSpace]
  | cons c cs ih =>
    simp only [skipSpace]
    split_ifs
    · simp only [List.length_cons]; omega
    · exact le_refl _

theorem scanStringAux_rest (input : List Byte) :
    ∀ st raw rest, scanStringAux st input = .ok raw rest → rest.length < input.length := by
  induction input with
  | nil => intro st raw rest h; cases st <;> simp [scanStringAux] at h
  | cons c cs ih =>
    intro st raw rest h
    cases st <;> simp only [scanStringAux] at h <;> split_ifs at h <;>
      first
      | (simp only [Scan.ok.injEq] at h; obtain ⟨_, h2⟩ := h; subst h2; simp)
      | (split at h <;> first
          | (rename_i heq; simp only [Scan.ok.injEq] at h; obtain ⟨_, h2⟩ := h; subst h2
             have := ih _ _ _ heq
             simp only [List.length_cons]; omega)
          | cases h)

theorem scanLit_rest (lit : List Byte) :
    ∀ input rest, scanLit lit input = .ok () rest → rest.length ≤ input.length := by
  induction lit with
  | nil => intro input rest h; simp only [scanLit, Scan.ok.injEq, true_and] at h; subst h; exact le_refl _
  | cons l ls ih =>
    intro input rest h
    cases input with
    | nil => simp [scanLit] at h
    | cons c cs =>
      simp only [scanLit] at h
      split_ifs at h
      have := ih _ _ h
      simp only [List.length_cons]; omega

theorem takeDigits_length (l : List Byte) : (takeDigits l).2.length ≤ l.length := by
  induction l with
  | nil => simp [takeDigits]
  | cons c cs ih =>
    simp only [takeDigits]
    split_ifs
    · simp only [List.length_cons]; omega
    · exact le_refl _

theorem scanDigits1_rest (input ds rest : List Byte) (h : scanDigits1 input = .ok ds rest) :
    rest.length ≤ input.length := by
  cases input with
  | nil => simp [scanDigits1] at h
  | cons c cs =>
    simp only [scanDigits1] at h
    split_ifs at h
    simp only [Scan.ok.injEq] at h
    obtain ⟨_, h2⟩ := h
    subst h2
    exact takeDigits_length _

theorem scanExp_rest (input ds rest : List Byte) (h : scanExp input = .ok ds rest) :
    rest.length ≤ input.length := by
  cases input with
  | nil => simp only [scanExp, Scan.ok.injEq] at h; obtain ⟨_, h2⟩ := h; subst h2; simp
  | cons c cs =>
    simp only [scanExp] at h
    split_ifs at h
    · cases cs with
      | nil => simp at h
      | cons s ss =>
        simp only at h
        split_ifs at h
        · split at h
          · rename_i heq
            simp only [Scan.ok.injEq] at h; obtain ⟨_, h2⟩ := h; subst h2
            have := scanDigits1_rest _ _ _ heq
            simp only [List.length_cons]; omega
          · cases h
          · cases h
        · split at h
          · rename_i heq
            simp only [Scan.ok.injEq] at h; obtain ⟨_, h2⟩ := h; subst h2
            have := scanDigits1_rest _ _ _ heq
            simp only [List.length_cons] at this ⊢; omega
          · cases h
          · cases h
    · simp only [Scan.ok.injEq] at h; obtain ⟨_, h2⟩ := h; subst h2; exact le_refl _

theorem scanFrac_rest (input ds rest : List Byte) (h : scanFrac input = .ok ds rest) :
    rest.length ≤ input.length := by
  cases input with
  | nil => simp only [scanFrac, Scan.ok.injEq] at h; obtain ⟨_, h2⟩ := h; subst h2; simp
  | cons c cs =>
    simp only [scanFrac] at h
    split_ifs at h
    · split at h
      · rename_i heq
        split at h
        · rename_i heq2
          simp only [Scan.ok.injEq] at h; obtain ⟨_, h2⟩ := h; subst h2
          have := scanDigits1_rest _ _ _ heq
          have := scanExp_rest _ _ _ heq2
          simp only [List.length_cons]; omega
        · cases h
        · cases h
      · cases h
      · cases h
    · exact scanExp_rest _ _ _ h

theorem scanInt_rest (input ds rest : List Byte) (h : scanInt input = .ok ds rest) :
    rest.length < input.length := by
  cases input with
  | nil => simp [scanInt] at h
  | cons c cs =>
    simp only [scanInt] at h
    split_ifs at h
    · split at h
      · rename_i heq
        simp only [Scan.ok.injEq] at h; obtain ⟨_, h2⟩ := h; subst h2
        have := scanFrac_rest _ _ _ heq
        simp only [List.length_cons]; omega
      · cases h
      · cases h
    · split at h
      · rename_i heq
        simp only [Scan.ok.injEq] at h; obtain ⟨_, h2⟩ := h; subst h2
        have := scanFrac_rest _ _ _ heq
        have := takeDigits_length cs
        simp only [List.length_cons]; omega
      · cases h
      · cases h

theorem scanNumber_rest (input ds rest : List Byte) (h : scanNumber input = .ok ds rest) :
    rest.length < input.length := by
  cases input with
  | nil => simp [scanNumber] at h
  | cons c cs =>
    simp only [scanNumber] at h
    split_ifs at h
    · split at h
      · rename_i heq
        simp only [Scan.ok.injEq] at h; obtain ⟨_, h2⟩ := h; subst h2
        have := scanInt_rest _ _ _ heq
        simp only [List.length_cons]; omega
      · cases h
      · cases h
    · exact scanInt_rest _ _ _ h

theorem parse_rest (n : Nat) :
    (∀ depth input v rest, parseValue n depth input = .ok v rest → rest.length < input.length)
    ∧ (∀ depth input acc v rest,
        parseElems n depth input acc = .ok v rest → rest.length < input.length)
    ∧ (∀ depth input acc v rest,
        parseMembers n depth input acc = .ok v rest → rest.length < input.length) := by
  induction n with
  | zero =>
    refine ⟨?_, ?_, ?_⟩ <;> intros <;> rename_i h <;> simp [parseValue, parseElems, parseMembers] at h
  | succ n ih =>
    obtain ⟨ihV, ihE, ihM⟩ := ih
    refine ⟨?_, ?_, ?_⟩
    · intro depth input v rest h
      simp only [parseValue] at h
      have hs := skipSpace_length input
      split at h
      · cases h
      · rename_i c cs heq
        rw [heq] at hs
        simp only [List.length_cons] at hs
        split_ifs at h
        · have hs2 := skipSpace_length cs
          split at h
          · cases h
          · rename_i d ds heq2
            rw [heq2] at hs2
            simp only [List.length_cons] at hs2
            split_ifs at h
            · simp only [Scan.ok.injEq] at h; obtain ⟨_, h2⟩ := h; subst h2; omega
            · have := ihM _ _ _ _ _ h
              simp only [List.length_cons] at this; omega
        · have hs2 := skipSpace_length cs
          split at h
          · cases h
          · rename_i d ds heq2
            rw [heq2] at hs2
            simp only [List.length_cons] at hs2
            split_ifs at h
            · simp only [Scan.ok.injEq] at h; obtain ⟨_, h2⟩ := h; subst h2; omega
            · have := ihE _ _ _ _ _ h
              simp only [List.length_cons] at this; omega
        · split at h
          · rename_i heq2
            simp only [Scan.ok.injEq] at h; obtain ⟨_, h2⟩ := h; subst h2
            have := scanStringAux_rest _ _ _ _ heq2
            omega
          · cases h
          · cases h
        · split at h
          · rename_i heq2
            simp only [Scan.ok.injEq] at h; obtain ⟨_, h2⟩ := h; subst h2
            have := scanLit_rest _ _ _ heq2
            omega
          · cases h
          · cases h
        · split at h
          · rename_i heq2
            simp only [Scan.ok.injEq] at h; obtain ⟨_, h2⟩ := h; subst h2
            have := scanLit_rest _ _ _ heq2
            omega
          · cases h
          · cases h
        · split at h
          · rename_i heq2
            simp only [Scan.ok.injEq] at h; obtain ⟨_, h2⟩ := h; subst h2
            have := scanLit_rest _ _ _ heq2
            omega
          · cases h
          · cases h
        · split at h
          · rename_i heq2
            simp only [Scan.ok.injEq] at h; obtain ⟨_, h2⟩ := h; subst h2
            have := scanNumber_rest _ _ _ heq2
            simp only [List.length_cons] at this
            omega
          · cases h
          · cases h
    · intro depth input acc v rest h
      simp only [parseElems] at h
      split at h
      · rename_i v0 rest0 heq
        have h0 := ihV _ _ _ _ heq
        have hs := skipSpace_length rest0
        split at h
        · cases h
        · rename_i e es heq2
          rw [heq2] at hs
          simp only [List.length_cons] at hs
          split_ifs at h
          · have := ihE _ _ _ _ _ h
            omega
          · simp only [Scan.ok.injEq] at h; obtain ⟨_, h2⟩ := h; subst h2; omega
      · cases h
      · cases h
    · intro depth input acc v rest h
      simp only [parseMembers] at h
      have hs := skipSpace_length input
      split at h
      · cases h
      · rename_i c cs heq
        rw [heq] at hs
        simp only [List.length_cons] at hs
        split_ifs at h
        split at h
        · rename_i raw rest1 heq1
          have h1 := scanStringAux_rest _ _ _ _ heq1
          have hs1 := skipSpace_length rest1
          split at h
          · cases h
          · rename_i d ds heq2
            rw [heq2] at hs1
            simp only [List.length_cons] at hs1
            split_ifs at h
            split at h
            · rename_i v0 rest2 heq3
              have h3 := ihV _ _ _ _ heq3
              have hs2 := skipSpace_length rest2
              split at h
              · cases h
              · rename_i e es heq4
                rw [heq4] at hs2
                simp only [List.length_cons] at hs2
                split_ifs at h
                · have := ihM _ _ _ _ _ h
                  omega
                · simp only [Scan.ok.injEq] at h; obtain ⟨_, h2⟩ := h; subst h2; omega
            · cases h
            · cases h
        · cases h
        · cases h

theorem parse_fuel (n : Nat) :
    (∀ depth input, 2 * input.length + 1 ≤ n →
        parseValue n depth input = parseValue (n + 1) depth input)
    ∧ (∀ depth input acc, 2 * input.length + 2 ≤ n →
        parseElems n depth input acc = parseElems (n + 1) depth input acc)
    ∧ (∀ depth input acc, 2 * input.length + 2 ≤ n →
        parseMembers n depth input acc = parseMembers (n + 1) depth input acc) := by
  induction n with
  | zero =>
    refine ⟨?_, ?_, ?_⟩ <;> intros <;> omega
  | succ n ih =>
    obtain ⟨ihV, ihE, ihM⟩ := ih
    refine ⟨?_, ?_, ?_⟩
    · intro depth input hb
      rw [parseValue, parseValue]
      have hs := skipSpace_length input
      cases hsk : skipSpace input with
      | nil => rfl
      | cons c cs =>
        rw [hsk] at hs
        simp only [List.length_cons] at hs
        have hs2 := skipSpace_length cs
        dsimp only
        by_cases h123 : c = 123
        · rw [if_pos h123, if_pos h123]
          by_cases hd : maxNestingDepth ≤ depth
          · rw [if_pos hd, if_pos hd]
          · rw [if_neg hd, if_neg hd]
            cases hsk2 : skipSpace cs with
            | nil => rfl
            | cons d ds =>
              rw [hsk2] at hs2
              simp only [List.length_cons] at hs2
              dsimp only
              split_ifs
              · rfl
              · exact ihM _ _ _ (by simp only [List.length_cons]; omega)
        · rw [if_neg h123, if_neg h123]
          by_cases h91 : c = 91
          · rw [if_pos h91, if_pos h91]
            by_cases hd : maxNestingDepth ≤ depth
            · rw [if_pos hd, if_pos hd]
            · rw [if_neg hd, if_neg hd]
              cases hsk2 : skipSpace cs with
              | nil => rfl
              | cons d ds =>
                rw [hsk2] at hs2
                simp only [List.length_cons] at hs2
                dsimp only
                split_ifs
                · rfl
                · exact ihE _ _ _ (by simp only [List.length_cons]; omega)
          · rw [if_neg h91, if_neg h91]
    · intro depth input acc hb
      rw [parseElems, parseElems]
      rw [← ihV depth input (by omega)]
      cases hv : parseValue n depth input with
      | ok v rest =>
        have h0 := (parse_rest n).1 _ _ _ _ hv
        have hs := skipSpace_length rest
        dsimp only
        cases hsk : skipSpace rest with
        | nil => rfl
        | cons e es =>
          rw [hsk] at hs
          simp only [List.length_cons] at hs
          dsimp only
          split_ifs
          · exact ihE _ _ _ (by omega)
          · rfl
          · rfl
      | eof => rfl
      | bad => rfl
    · intro depth input acc hb
      rw [parseMembers, parseMembers]
      have hs := skipSpace_length input
      cases hsk : skipSpace input with
      | nil => rfl
      | cons c cs =>
        rw [hsk] at hs
        simp only [List.length_cons] at hs
        dsimp only
        split_ifs
        · cases hstr : scanString cs with
          | ok raw rest1 =>
            have h1 := scanStringAux_rest _ _ _ _ hstr
            have hs1 := skipSpace_length rest1
            dsimp only
            cases hsk1 : skipSpace rest1 with
            | nil => rfl
            | cons d ds =>
              rw [hsk1] at hs1
              simp only [List.length_cons] at hs1
              dsimp only
              split_ifs
              · rw [← ihV depth ds (by omega)]
                cases hv : parseValue n depth ds with
                | ok v rest2 =>
                  have h3 := (parse_rest n).1 _ _ _ _ hv
                  have hs2 := skipSpace_length rest2
                  dsimp only
                  cases hsk2 : skipSpace rest2 with
                  | nil => rfl
                  | cons e es =>
                    rw [hsk2] at hs2
                    simp only [List.length_cons] at hs2
                    dsimp only
                    split_ifs
                    · exact ihM _ _ _ (by omega)
                    · rfl
                    · rfl
                | eof => rfl
                | bad => rfl
              · rfl
          | eof => rfl
          | bad => rfl
        · rfl

/-- More fuel than `fuelFor` gives changes nothing: the parser never runs out. -/
theorem parseValue_fuel (data : List Byte) (k depth : Nat) :
    parseValue (fuelFor data + k) depth data = parseValue (fuelFor data) depth data := by
  induction k with
  | zero => rfl
  | succ k ih =>
    rw [← ih, ← Nat.add_assoc]
    exact ((parse_fuel (fuelFor data + k)).1 depth data (by unfold fuelFor; omega)).symm

/-! ## Lemmas on the decoder -/

section
variable {U : Type}

theorem decodeError_errorJson (e0 e : Error) : decodeError e0 (errorJson e) = e := by
  rfl

theorem decodeErrorSlice_errorJson (es : List Error) :
    ∀ cur : List Error, decodeErrorSlice cur (es.map errorJson) = es := by
  induction es with
  | nil => intro cur; rfl
  | cons e es ih =>
    intro cur
    simp only [List.map_cons, decodeErrorSlice, decodeError_errorJson, ih]

theorem Unmarshal_invalid (lib : Lib U) (data : List Byte) (st : Decoding U)
    (h : parseJSON data = none) : Unmarshal lib data st = st := by
  simp only [Unmarshal, h]

theorem storeErrors_errorJson (es : List Error) :
    storeErrors [] [] (.arr (es.map errorJson)) = (es, []) := by
  cases es with
  | nil => rfl
  | cons e es =>
    simp only [List.map_cons, storeErrors, decodeErrorSlice_errorJson (e :: es) [],
      List.append_nil, List.drop_nil]
    rw [← List.map_cons, decodeErrorSlice_errorJson (e :: es) []]

theorem Unmarshal_errorShape (lib : Lib U) (data : List Byte) (obj : Response U)
    (ptr : RespPtr U) (m0 m : String) (es : List Error)
    (h : parseJSON data = some (errorShape m es)) :
    Unmarshal lib data { obj := obj, ptr := ptr, Message := m0, Errors := [], spare := [] }
      = { obj := obj, ptr := ptr, Message := m, Errors := es, spare := [] } := by
  have h1 : findField responseFields "message" = some ResponseField.Message := by rfl
  have h2 : findField responseFields "errors" = some ResponseField.Errors := by rfl
  simp only [Unmarshal, h, errorShape, List.foldl, Decoding.setKey, h1, h2, storeString,
    storeErrors_errorJson, Bool.false_eq_true, if_false]

theorem parseJSON_empty : parseJSON [] = none := by rfl

/-- On the success path `CheckResponse` is the identity on the response. -/
theorem CheckResponse_of_success (lib : Lib U) (r : Response U) (h : isSuccess r.StatusCode) :
    CheckResponse lib r = (r, none) := by
  unfold isSuccess at h
  simp only [CheckResponse, h, and_self, if_true]

/-! ## Theorems on `CheckResponse` -/

/-- C1: for a status code in `[200, 299]` `CheckResponse` returns the nil error and
leaves the response, its body included, as it was: the body is not read, whatever
it holds. -/
theorem CheckResponse_success (lib : Lib U) (r : Response U) (h : isSuccess r.StatusCode) :
    CheckResponse lib r = (r, none) := by
  unfold isSuccess at h
  simp only [CheckResponse, h, and_self, if_true]

/-- C1 at status 204 with a body that is not JSON. -/
theorem CheckResponse_success_witness :
    isSuccess (respond 204 "not json").StatusCode ∧
      CheckResponse textLib (respond 204 "not json") = (respond 204 "not json", none) :=
  ⟨by decide, CheckResponse_success textLib (respond 204 "not json") (by decide)⟩

/-- C2, the failing input: status 500 with the body `{"Response":null}`. The key
matches the untagged field `Response`, JSON null sets the pointer to nil, and the
`ErrorResponse` returned no longer carries the response passed in. -/
theorem CheckResponse_null_Response :
    (CheckResponse textLib (respond 500 "\x7b\"Response\":null\x7d")).2
      = some { Response := none, Message := "", Errors := [] } := by
  decide

/-- C3: for a status outside `[200, 299]` and a body, read without error, that is a
JSON object of the error shape with message `m` and sub-errors `es`,
`CheckResponse` returns an `ErrorResponse` with `Message = m` and `Errors = es`
(same entries, same order, same length) that carries the response passed in, its
body now read. -/
theorem CheckResponse_error_shape (lib : Lib U) (r : Response U) (m : String) (es : List Error)
    (hs : ¬ isSuccess r.StatusCode) (hf : r.Body.fail = none)
    (hb : parseJSON r.Body.data = some (errorShape m es)) :
    CheckResponse lib r =
      ({ r with Body := r.Body.drain },
        some { Response := some { r with Body := r.Body.drain }, Message := m, Errors := es }) := by
  unfold isSuccess at hs
  simp only [CheckResponse, hs, if_false, ReadAll, hf,
    Unmarshal_errorShape lib _ _ _ _ m es hb, Decoding.toErrorResponse, Body.drain]

/-- C3 at the structured-failure scenario: status 404, message `not found`, one
sub-error `action`/`name`/`missing`. -/
theorem CheckResponse_error_shape_witness :
    CheckResponse textLib (respond 404 notFoundBody) =
      ({ respond 404 notFoundBody with Body := (respond 404 notFoundBody).Body.drain },
        some { Response := some { respond 404 notFoundBody with
                 Body := (respond 404 notFoundBody).Body.drain },
               Message := "not found",
               Errors := [{ Resource := "action", Field := "name", Code := "missing" }] }) :=
  CheckResponse_error_shape textLib (respond 404 notFoundBody) "not found"
    [{ Resource := "action", Field := "name", Code := "missing" }] (by decide) (by rfl) (by rfl)

/-- For a status outside `[200, 299]` and a body that cannot be read without error
or is not valid JSON (the empty body included), the `ErrorResponse` carries the
response passed in and has an empty message and no sub-errors. -/
theorem CheckResponse_failure_defaults (lib : Lib U) (r : Response U)
    (hs : ¬ isSuccess r.StatusCode) (hb : r.Body.fail ≠ none ∨ parseJSON r.Body.data = none) :
    CheckResponse lib r =
      ({ r with Body := r.Body.drain },
        some { Response := some { r with Body := r.Body.drain }, Message := "", Errors := [] }) := by
  unfold isSuccess at hs
  cases hfail : r.Body.fail with
  | some m => simp only [CheckResponse, hs, if_false, ReadAll, hfail, Decoding.toErrorResponse,
      Body.drain]
  | none =>
    have hp : parseJSON r.Body.data = none := by
      cases hb with
      | inl h => exact absurd hfail h
      | inr h => exact h
    simp only [CheckResponse, hs, if_false, ReadAll, hfail, Unmarshal_invalid lib _ _ hp,
      Decoding.toErrorResponse, Body.drain]

/-- `CheckResponse` returns an error exactly for the status codes outside
`[200, 299]`. -/
theorem CheckResponse_error_iff (lib : Lib U) (r : Response U) :
    (CheckResponse lib r).2 ≠ none ↔ ¬ isSuccess r.StatusCode := by
  unfold isSuccess
  by_cases h : 200 ≤ r.StatusCode ∧ r.StatusCode ≤ 299
  · simp only [CheckResponse, h, and_self, if_true, ne_eq, not_true_eq_false]
  · simp only [CheckResponse, h, if_false, ReadAll]
    cases r.Body.fail <;> simp

/-- The malformed-body scenario: a 500 response whose body is not JSON, and one
with an empty body, give an `ErrorResponse` with empty message and sub-errors that
carries the response. -/
theorem CheckResponse_malformed_body :
    (CheckResponse textLib (respond 500 "<html>oops")).2
        = some { Response := some (respond 500 ""), Message := "", Errors := [] }
      ∧ (CheckResponse textLib (respond 500 "")).2
        = some { Response := some (respond 500 ""), Message := "", Errors := [] } := by
  decide

/-! ## Theorems on the renderings -/

/-- C4: `Error.Error` is the code, ` error caused by `, the field, ` field on `, the
resource and ` resource`; and for an `ErrorResponse` whose response has a request,
`ErrorResponse.Error` is the request method, a space, the request URL, `: `, the
status code in decimal, a space, the message, a space and the sub-errors. -/
theorem Error_renderings (lib : Lib U) (e : Error) (r : ErrorResponse U) (resp : Response U)
    (req : Request U) (h1 : r.Response = some resp) (h2 : resp.Request = some req) :
    e.Error = e.Code ++ " error caused by " ++ e.Field ++ " field on " ++ e.Resource ++ " resource"
      ∧ r.Error lib = some (req.Method ++ " " ++ fmtURL lib req.URL ++ ": "
          ++ toString resp.StatusCode ++ " " ++ r.Message ++ " " ++ fmtErrors r.Errors) := by
  refine ⟨rfl, ?_⟩
  simp only [ErrorResponse.Error, h1, h2, fmtInt]

/-- C4 at the structured-failure scenario. -/
theorem Error_renderings_witness :
    Error.Error { Resource := "action", Field := "name", Code := "missing" }
        = "missing error caused by name field on action resource"
      ∧ ErrorResponse.Error textLib
          { Response := some (respond 404 ""), Message := "not found",
            Errors := [{ Resource := "action", Field := "name", Code := "missing" }] }
        = some ("GET https://whisk.com/actions: 404 not found "
            ++ "[\x7bResource:action Field:name Code:missing\x7d]") := by
  have h := Error_renderings textLib { Resource := "action", Field := "name", Code := "missing" }
    { Response := some (respond 404 ""), Message := "not found",
      Errors := [{ Resource := "action", Field := "name", Code := "missing" }] }
    (respond 404 "") getActions rfl rfl
  refine ⟨by decide, ?_⟩
  rw [h.2]
  decide

end

/-! ## Theorems on `Do` -/

section
variable {U σ A T R V X : Type}

/-- C5: when the request yields a response with a status outside `[200, 299]`, `Do`
returns that response (its body read by `CheckResponse`, then closed) together
with the error `CheckResponse` produced on it, and the target is as it was, whatever
kind of target it is. -/
theorem Do_api_error (lib : Lib U) (unmarshal : Json → X → X × Option (GoError U))
    (c : Client U σ A T R V) (req : Request U) (resp : Response U) (v : Target X)
    (hx : c.client req = .ok resp) (hs : ¬ isSuccess resp.StatusCode) :
    ∃ e, (CheckResponse lib resp).2 = some e ∧
      c.Do lib unmarshal req v = (some (CheckResponse lib resp).1.close, some (.api e), v) := by
  have hne := (CheckResponse_error_iff lib resp).mpr hs
  cases hc : CheckResponse lib resp with
  | mk resp1 err =>
    cases err with
    | none => simp [hc] at hne
    | some e =>
      refine ⟨e, rfl, ?_⟩
      simp only [Client.Do, hx, hc]

/-- C6: when the request yields a response with a status in `[200, 299]`, called with
a target that is neither nil nor a writer, `Do` on an empty body returns the
response and the nil error and leaves the target unchanged (the decoder reports
`io.EOF`, which is mapped to nil), while any decode error other than `io.EOF` is
returned as it is. -/
theorem Do_decode (lib : Lib U) (unmarshal : Json → X → X × Option (GoError U))
    (c : Client U σ A T R V) (req : Request U) (resp : Response U) (x : X)
    (hx : c.client req = .ok resp) (hs : isSuccess resp.StatusCode) :
    (resp.Body.data = [] → resp.Body.fail = none →
        Decode unmarshal resp.Body x = (x, some .EOF) ∧
        c.Do lib unmarshal req (.value x)
          = (some { resp with Body := resp.Body.drain }.close, none, .value x))
      ∧ (∀ err, (Decode unmarshal resp.Body x).2 = some err → err ≠ .EOF →
          c.Do lib unmarshal req (.value x)
            = (some { resp with Body := resp.Body.drain }.close, some err,
                .value (Decode unmarshal resp.Body x).1)) := by
  have hc := CheckResponse_of_success lib resp hs
  constructor
  · intro hd hf
    have hdec : Decode unmarshal resp.Body x = (x, some .EOF) := by
      simp only [Decode, hd, skipSpace, hf]
    refine ⟨hdec, ?_⟩
    simp only [Client.Do, hx, hc, hdec]
  · intro err he hne
    simp only [Client.Do, hx, hc, he]
    cases err with
    | EOF => exact absurd rfl hne
    | _ => rfl

/-- For a writer that accepts every write, `Do` appends exactly the body bytes to
what the writer holds and returns the response with the nil error; the JSON decoder
`unmarshal` plays no part and the body need not be JSON. -/
theorem Do_writer_accepting (lib : Lib U) (unmarshal : Json → X → X × Option (GoError U))
    (c : Client U σ A T R V) (req : Request U) (resp : Response U) (held : List Byte)
    (hx : c.client req = .ok resp) (hs : isSuccess resp.StatusCode) :
    c.Do lib unmarshal req (.writer { held := held, room := none })
      = (some { resp with Body := resp.Body.drain }.close, none,
          .writer { held := held ++ resp.Body.data, room := none }) := by
  simp only [Client.Do, hx, CheckResponse_of_success lib resp hs, Copy]

/-- For every writer `Do` returns the nil error on a response with a status in
`[200, 299]`; what the writer holds afterwards starts with what it held, followed
by a leading part of the body. -/
theorem Do_writer_nil_error (lib : Lib U) (unmarshal : Json → X → X × Option (GoError U))
    (c : Client U σ A T R V) (req : Request U) (resp : Response U) (w : Writer)
    (hx : c.client req = .ok resp) (hs : isSuccess resp.StatusCode) :
    ∃ w1 : Writer, c.Do lib unmarshal req (.writer w)
        = (some { resp with Body := resp.Body.drain }.close, none, .writer w1)
      ∧ ∃ n, w1.held = w.held ++ resp.Body.data.take n := by
  refine ⟨(Copy w resp.Body).1, ?_, ?_⟩
  · simp only [Client.Do, hx, CheckResponse_of_success lib resp hs]
  · unfold Copy
    cases w.room with
    | none => exact ⟨resp.Body.data.length, by simp⟩
    | some k =>
      dsimp only
      split_ifs
      · exact ⟨resp.Body.data.length, by simp⟩
      · exact ⟨k, rfl⟩

/-- C5 at a 404 response with the structured failure body and a string target. -/
theorem Do_api_error_witness :
    ∃ e, (CheckResponse textLib (respond 404 notFoundBody)).2 = some e ∧
      (demoClient (respond 404 notFoundBody)).Do textLib storeText getActions (.value "old")
        = (some (CheckResponse textLib (respond 404 notFoundBody)).1.close, some (.api e),
            .value "old") :=
  Do_api_error textLib storeText (demoClient (respond 404 notFoundBody)) getActions
    (respond 404 notFoundBody) (.value "old") rfl (by decide)

/-- C6 at a 200 response with an empty body, and at one whose body `tru` ends inside
a literal. -/
theorem Do_decode_witness :
    (demoClient (respond 200 "")).Do textLib storeText getActions (.value "old")
        = (some { respond 200 "" with Body := (respond 200 "").Body.drain }.close, none,
            .value "old")
      ∧ (demoClient (respond 200 "tru")).Do textLib storeText getActions (.value "old")
        = (some { respond 200 "tru" with Body := (respond 200 "tru").Body.drain }.close,
            some .ErrUnexpectedEOF, .value (Decode storeText (respond 200 "tru").Body "old").1) :=
  ⟨((Do_decode textLib storeText (demoClient (respond 200 "")) getActions (respond 200 "") "old"
      rfl (by decide)).1 rfl rfl).2,
    (Do_decode textLib storeText (demoClient (respond 200 "tru")) getActions (respond 200 "tru")
      "old" rfl (by decide)).2 .ErrUnexpectedEOF (by rfl) (by decide)⟩

/-- C7, the failing input: a 200 response with the body `not json` and a writer that
accepts three bytes and then fails. `Do` returns the nil error although the writer
holds only `not`, the first three of the eight body bytes. -/
theorem Do_writer_short :
    (demoClient (respond 200 "not json")).Do textLib storeText getActions
        (.writer { held := [], room := some 3 })
      = (some { respond 200 "not json" with Body := (respond 200 "not json").Body.drain }.close,
          none, .writer { held := bytes "not", room := some 0 }) := by
  decide

/-! ## Theorems on `List` -/

/-- C8: `List` invokes the listings in the order actions, triggers, rules,
activations and stops at the first that fails: it returns that error, and the
listings invoked are those up to the failing one, the state of the remote side
being the one that listing left. When all four succeed the error is nil and each
result is what the corresponding service returned. -/
theorem List_short_circuit (c : Client U σ A T R V) (s : σ) :
    (∀ e, (c.Action s).1.2 = some e →
        (c.List s).err = some e ∧ (c.List s).calls = [.Action]
          ∧ (c.List s).world = (c.Action s).2)
      ∧ ((c.Action s).1.2 = none → ∀ e, (c.Trigger (c.Action s).2).1.2 = some e →
        (c.List s).err = some e ∧ (c.List s).calls = [.Action, .Trigger]
          ∧ (c.List s).world = (c.Trigger (c.Action s).2).2)
      ∧ ((c.Action s).1.2 = none → (c.Trigger (c.Action s).2).1.2 = none →
        ∀ e, (c.Rule (c.Trigger (c.Action s).2).2).1.2 = some e →
        (c.List s).err = some e ∧ (c.List s).calls = [.Action, .Trigger, .Rule]
          ∧ (c.List s).world = (c.Rule (c.Trigger (c.Action s).2).2).2)
      ∧ ((c.Action s).1.2 = none → (c.Trigger (c.Action s).2).1.2 = none →
        (c.Rule (c.Trigger (c.Action s).2).2).1.2 = none →
        (c.List s).err = (c.Activation (c.Rule (c.Trigger (c.Action s).2).2).2).1.2
          ∧ (c.List s).calls = [.Action, .Trigger, .Rule, .Activation]
          ∧ (c.List s).world = (c.Activation (c.Rule (c.Trigger (c.Action s).2).2).2).2
          ∧ (c.List s).actions = (c.Action s).1.1
          ∧ (c.List s).triggers = (c.Trigger (c.Action s).2).1.1
          ∧ (c.List s).rules = (c.Rule (c.Trigger (c.Action s).2).2).1.1
          ∧ (c.List s).activations
              = (c.Activation (c.Rule (c.Trigger (c.Action s).2).2).2).1.1) := by
  unfold Client.List
  rcases hA : c.Action s with ⟨⟨la, ea⟩, s1⟩
  cases ea with
  | some e => simp
  | none =>
    rcases hT : c.Trigger s1 with ⟨⟨lt, et⟩, s2⟩
    cases et with
    | some e => simp [hT]
    | none =>
      rcases hR : c.Rule s2 with ⟨⟨lr, er⟩, s3⟩
      cases er with
      | some e => simp [hT, hR]
      | none =>
        rcases hV : c.Activation s3 with ⟨⟨lv, ev⟩, s4⟩
        simp [hT, hR, hV]

/-- C8 at a client whose action listing succeeds and whose trigger listing fails:
the error is the trigger listing's, and neither the ghost trace nor the log kept
by the services shows a call of the rule or activation listing. -/
theorem List_short_circuit_witness :
    ((demoClient (respond 200 "")).List []).err = some (.other "triggers unavailable")
      ∧ ((demoClient (respond 200 "")).List []).calls = [.Action, .Trigger]
      ∧ ((demoClient (respond 200 "")).List []).world = [.Action, .Trigger] := by
  have h := (List_short_circuit (demoClient (respond 200 "")) []).2.1 rfl
    (.other "triggers unavailable") rfl
  exact h

/-- C9 fails: at a client whose action listing gives one action and whose trigger
listing fails, `List` returns the error together with the action listed. -/
theorem List_partial_results :
    ((demoClient (respond 200 "")).List []).err ≠ none
      ∧ ((demoClient (respond 200 "")).List []).actions = ["hello"] := by
  decide

/-- C9, amended: when `List` returns an error, the results of the listings that
were not invoked (those after the failing one) are empty, and the result of every
listing that was invoked, the failing one included, is what its service returned:
the results of the listings that succeeded are returned with the error. -/
theorem List_error_results (c : Client U σ A T R V) (s : σ) (h : (c.List s).err ≠ none) :
    (c.List s).actions = (c.Action s).1.1
      ∧ (((c.List s).calls = [.Action] ∧ (c.List s).triggers = [] ∧ (c.List s).rules = []
            ∧ (c.List s).activations = [])
        ∨ ((c.List s).calls = [.Action, .Trigger]
            ∧ (c.List s).triggers = (c.Trigger (c.Action s).2).1.1
            ∧ (c.List s).rules = [] ∧ (c.List s).activations = [])
        ∨ ((c.List s).calls = [.Action, .Trigger, .Rule]
            ∧ (c.List s).triggers = (c.Trigger (c.Action s).2).1.1
            ∧ (c.List s).rules = (c.Rule (c.Trigger (c.Action s).2).2).1.1
            ∧ (c.List s).activations = [])
        ∨ ((c.List s).calls = [.Action, .Trigger, .Rule, .Activation]
            ∧ (c.List s).triggers = (c.Trigger (c.Action s).2).1.1
            ∧ (c.List s).rules = (c.Rule (c.Trigger (c.Action s).2).2).1.1
            ∧ (c.List s).activations
                = (c.Activation (c.Rule (c.Trigger (c.Action s).2).2).2).1.1)) := by
  revert h
  unfold Client.List
  rcases hA : c.Action s with ⟨⟨la, ea⟩, s1⟩
  cases ea with
  | some e => simp
  | none =>
    rcases hT : c.Trigger s1 with ⟨⟨lt, et⟩, s2⟩
    cases et with
    | some e => simp [hT]
    | none =>
      rcases hR : c.Rule s2 with ⟨⟨lr, er⟩, s3⟩
      cases er with
      | some e => simp [hT, hR]
      | none =>
        rcases hV : c.Activation s3 with ⟨⟨lv, ev⟩, s4⟩
        simp [hT, hR, hV]

/-- C9, amended, at the client whose trigger listing fails after the action listing
gave one action. -/
theorem List_error_results_witness :
    ((demoClient (respond 200 "")).List []).err ≠ none
      ∧ ((demoClient (respond 200 "")).List []).actions = ["hello"]
      ∧ ((demoClient (respond 200 "")).List []).rules = []
      ∧ ((demoClient (respond 200 "")).List []).activations = [] := by
  have h := List_error_results (demoClient (respond 200 "")) [] (by decide)
  refine ⟨by decide, h.1, ?_, ?_⟩ <;> decide

/-! ## Theorems on `NewRequest` -/

theorem httpNewRequest_ok (lib : Lib U) (method urlStr : String) (buf : Option (List Byte))
    (req : Request U) (h : httpNewRequest lib method urlStr buf = .ok req) :
    req.Method = (if method = "" then "GET" else method)
      ∧ (∃ u, lib.Parse urlStr = .ok u ∧ req.URL = some (lib.removeEmptyPort u))
      ∧ req.Body = buf := by
  unfold httpNewRequest at h
  by_cases hv : validMethod (if method = "" then "GET" else method) = true
  · rw [if_pos hv] at h
    cases hq : lib.Parse urlStr with
    | error e1 => rw [hq] at h; dsimp only at h; cases h
    | ok u =>
      rw [hq] at h
      dsimp only at h
      cases h
      exact ⟨rfl, ⟨u, rfl, rfl⟩, rfl⟩
  · rw [if_neg hv] at h
    cases h

theorem encodeBody_ok {W : Type} (marshal : W → Except (GoError U) (List Byte)) (body : Option W)
    (buf : Option (List Byte)) (h : encodeBody marshal body = .ok buf) :
    (buf = none ↔ body = none)
      ∧ ∀ b, body = some b → ∃ bs, marshal b = .ok bs ∧ buf = some (bs ++ [10]) := by
  cases body with
  | none =>
    cases h
    exact ⟨⟨fun _ => rfl, fun _ => rfl⟩, fun b hb => by cases hb⟩
  | some b0 =>
    unfold encodeBody Encode at h
    dsimp only at h
    cases hm : marshal b0 with
    | error e1 => rw [hm] at h; dsimp only at h; cases h
    | ok bs =>
      rw [hm] at h
      dsimp only at h
      cases h
      refine ⟨⟨fun h0 => (by cases h0), fun h0 => (by cases h0)⟩, fun b hb => ?_⟩
      cases hb
      exact ⟨bs, hm, rfl⟩

theorem encodeBody_error {W : Type} (marshal : W → Except (GoError U) (List Byte)) (b : W)
    (e : GoError U) (h : marshal b = .error e) : encodeBody marshal (some b) = .error e := by
  simp only [encodeBody, Encode, h]

/-- The two ways `NewRequest` can end. -/
theorem NewRequest_cases {W : Type} (lib : Lib U) (marshal : W → Except (GoError U) (List Byte))
    (c : Client U σ A T R V) (method urlStr : String) (body : Option W) :
    (∃ e, c.NewRequest lib marshal method urlStr body = (none, some e))
      ∨ (∃ rel buf req, lib.Parse urlStr = .ok rel ∧ encodeBody marshal body = .ok buf
          ∧ httpNewRequest lib method (lib.String (lib.ResolveReference c.BaseURL rel)) buf
              = .ok req
          ∧ c.NewRequest lib marshal method urlStr body = (some req, none)) := by
  cases hp : lib.Parse urlStr with
  | error e0 => exact Or.inl ⟨e0, by simp only [Client.NewRequest, hp]⟩
  | ok rel =>
    cases hbuf : encodeBody marshal body with
    | error e1 => exact Or.inl ⟨e1, by simp only [Client.NewRequest, hp, hbuf]⟩
    | ok buf =>
      cases hreq : httpNewRequest lib method
          (lib.String (lib.ResolveReference c.BaseURL rel)) buf with
      | error e2 => exact Or.inl ⟨e2, by simp only [Client.NewRequest, hp, hbuf, hreq]⟩
      | ok req =>
        exact Or.inr ⟨rel, buf, req, rfl, rfl, hreq,
          by simp only [Client.NewRequest, hp, hbuf, hreq]⟩

theorem encodeBody_of {W : Type} (marshal : W → Except (GoError U) (List Byte))
    (body : Option W) (buf : Option (List Byte))
    (h : (body = none ∧ buf = none)
      ∨ ∃ b bs, body = some b ∧ marshal b = .ok bs ∧ buf = some (bs ++ [10])) :
    encodeBody marshal body = .ok buf := by
  rcases h with ⟨hb, hbuf⟩ | ⟨b, bs, hb, hm, hbuf⟩
  · subst hb hbuf; rfl
  · subst hb hbuf; simp only [encodeBody, Encode, hm]

theorem ResolveReference_absolute (p : URLPrims) (u ref : URL) (h : ref.Scheme ≠ "") :
    ResolveReference p u ref = setPath p ref (p.resolvePath (p.EscapedPath ref) "") := by
  unfold ResolveReference
  rw [if_pos (Or.inl h), if_neg h]

theorem ResolveReference_relative (p : URLPrims) (u ref : URL) (h1 : ref.Scheme = "")
    (h2 : ref.Host = "") (h3 : ref.User = none) (h4 : ref.Opaque = "") (h5 : ref.Path ≠ "") :
    ResolveReference p u ref
      = setPath p { ref with Scheme := u.Scheme, Host := u.Host, User := u.User }
          (p.resolvePath (p.EscapedPath u) (p.EscapedPath ref)) := by
  unfold ResolveReference
  have hn : ¬ (ref.Scheme ≠ "" ∨ ref.Host ≠ "" ∨ ref.User ≠ none) := by
    simp [h1, h2, h3]
  have h6 : ¬ (ref.Path = "" ∧ u.Opaque ≠ "") := fun h => h5 h.1
  rw [if_neg hn, if_neg (not_not.mpr h4), if_neg h6]
  simp only [h5, false_and, if_false]

/-- C10, amended: `NewRequest` returns exactly one of a request and an error. When
parsing the path, encoding a non-nil body or constructing the request (an invalid
method, or a resolved URL whose string form does not parse) fails, the request is
nil and the error is that failure. Otherwise the error is nil and a request is
returned: its method is the method given, or `GET` when that is empty; its URL is
the path resolved against `BaseURL` by reference resolution, as `http.NewRequest`
reads it back from its string form, with an empty port removed from the host; and
its body is nil for a nil body argument and otherwise the JSON encoding of the
argument followed by a newline. In reference resolution an absolute URL overrides
the base (the base plays no part in the result) and a relative path extends it (the
result has the scheme, host and user of the base and the path of the reference
resolved against the path of the base). -/
theorem NewRequest_result {W : Type} (p : URLPrims)
    (um : Json → Option (Response URL) → Response URL × Bool)
    (marshal : W → Except (GoError URL) (List Byte)) (c : Client URL σ A T R V)
    (method urlStr : String) (body : Option W) :
    (((c.NewRequest (netURL p um) marshal method urlStr body).1 = none
        ∧ (c.NewRequest (netURL p um) marshal method urlStr body).2 ≠ none)
      ∨ ((c.NewRequest (netURL p um) marshal method urlStr body).1 ≠ none
        ∧ (c.NewRequest (netURL p um) marshal method urlStr body).2 = none))
    ∧ (∀ e, p.Parse urlStr = .error e →
        c.NewRequest (netURL p um) marshal method urlStr body = (none, some e))
    ∧ (∀ rel b e, p.Parse urlStr = .ok rel → body = some b → marshal b = .error e →
        c.NewRequest (netURL p um) marshal method urlStr body = (none, some e))
    ∧ (∀ rel buf, p.Parse urlStr = .ok rel →
        ((body = none ∧ buf = none)
          ∨ ∃ b bs, body = some b ∧ marshal b = .ok bs ∧ buf = some (bs ++ [10])) →
        (validMethod (if method = "" then "GET" else method) = false →
          c.NewRequest (netURL p um) marshal method urlStr body
            = (none, some (.other "net/http: invalid method")))
        ∧ (validMethod (if method = "" then "GET" else method) = true →
          ∀ e, p.Parse (p.String (ResolveReference p c.BaseURL rel)) = .error e →
          c.NewRequest (netURL p um) marshal method urlStr body = (none, some e))
        ∧ (validMethod (if method = "" then "GET" else method) = true →
          ∀ u, p.Parse (p.String (ResolveReference p c.BaseURL rel)) = .ok u →
          c.NewRequest (netURL p um) marshal method urlStr body
            = (some { Method := if method = "" then "GET" else method
                      URL := some { u with Host := removeEmptyPort u.Host }
                      Body := buf }, none)))
    ∧ (∀ ref, ref.Scheme ≠ "" →
        ResolveReference p c.BaseURL ref = setPath p ref (p.resolvePath (p.EscapedPath ref) ""))
    ∧ (∀ ref, ref.Scheme = "" → ref.Host = "" → ref.User = none → ref.Opaque = "" →
        ref.Path ≠ "" →
        ResolveReference p c.BaseURL ref
          = setPath p { ref with Scheme := c.BaseURL.Scheme, Host := c.BaseURL.Host,
                                 User := c.BaseURL.User }
              (p.resolvePath (p.EscapedPath c.BaseURL) (p.EscapedPath ref))) := by
  refine ⟨?_, ?_, ?_, ?_, ?_, ?_⟩
  · rcases NewRequest_cases (netURL p um) marshal c method urlStr body with
      ⟨e, he⟩ | ⟨rel, buf, req, _, _, _, hr⟩
    · rw [he]; exact Or.inl ⟨rfl, by simp⟩
    · rw [hr]; exact Or.inr ⟨by simp, rfl⟩
  · intro e hp
    have hp1 : (netURL p um).Parse urlStr = .error e := hp
    simp only [Client.NewRequest, hp1]
  · intro rel b e hp hb hm
    have hp1 : (netURL p um).Parse urlStr = .ok rel := hp
    simp only [Client.NewRequest, hp1, hb, encodeBody_error marshal b e hm]
  · intro rel buf hp hbuf
    have hp1 : (netURL p um).Parse urlStr = .ok rel := hp
    have henc := encodeBody_of marshal body buf hbuf
    refine ⟨?_, ?_, ?_⟩
    · intro hv
      simp only [Client.NewRequest, hp1, henc, httpNewRequest, hv, Bool.false_eq_true, if_false]
    · intro hv e hq
      have hq1 : (netURL p um).Parse
          ((netURL p um).String ((netURL p um).ResolveReference c.BaseURL rel)) = .error e := hq
      simp only [Client.NewRequest, hp1, henc, httpNewRequest, hv, if_true, hq1]
    · intro hv u hq
      have hq1 : (netURL p um).Parse
          ((netURL p um).String ((netURL p um).ResolveReference c.BaseURL rel)) = .ok u := hq
      simp only [Client.NewRequest, hp1, henc, httpNewRequest, hv, if_true, hq1]
      rfl
  · intro ref h
    exact ResolveReference_absolute p c.BaseURL ref h
  · intro ref h1 h2 h3 h4 h5
    exact ResolveReference_relative p c.BaseURL ref h1 h2 h3 h4 h5

/-- C10 fails at three calls on plain URLs. With the empty method the request has the
method `GET`, not the method given. With the base URL `https://whisk.com:` (an
empty port) the URL of the request has the host `whisk.com`, while the path
resolved against the base has the host `whisk.com:`. With the body `hi` the body of
the request is the five bytes of the encoding followed by a newline, not the four
bytes of the encoding. -/
theorem NewRequest_differs :
    ((urlClient (whisk "whisk.com" "")).NewRequest plainLib marshalPlain "" "/actions" none
        = (some { Method := "GET", URL := some (whisk "whisk.com" "/actions"), Body := none },
            none))
      ∧ ((urlClient (whisk "whisk.com:" "")).NewRequest plainLib marshalPlain "GET" "/actions"
            none
          = (some { Method := "GET", URL := some (whisk "whisk.com" "/actions"), Body := none },
              none)
        ∧ plainParse "/actions" = .ok { emptyURL with Path := "/actions" }
        ∧ ResolveReference plainURL (whisk "whisk.com:" "") { emptyURL with Path := "/actions" }
            = whisk "whisk.com:" "/actions")
      ∧ ((urlClient (whisk "whisk.com" "")).NewRequest plainLib marshalPlain "POST" "/actions"
            (some "hi")
          = (some { Method := "POST", URL := some (whisk "whisk.com" "/actions"),
                    Body := some (bytes "\"hi\"\n") }, none)
        ∧ marshalPlain "hi" = .ok (bytes "\"hi\"")) := by
  refine ⟨by decide, ⟨by decide, by rfl, by decide⟩, by decide, by rfl⟩

/-- Calls of `NewRequest` on plain URLs: an absolute URL overrides the base, a
relative path extends it, dot segments are removed, and a method that is not a
token makes the construction fail. -/
theorem NewRequest_examples :
    (urlClient (whisk "whisk.com" "/api/v1/")).NewRequest plainLib marshalPlain "GET"
        "https://other.org/x?y#z" none
        = (some { Method := "GET",
                  URL := some { emptyURL with Scheme := "https", Host := "other.org", Path := "/x",
                                              RawQuery := "y", Fragment := "z" },
                  Body := none }, none)
      ∧ (urlClient (whisk "whisk.com" "/api/v1/")).NewRequest plainLib marshalPlain "GET"
          "triggers" none
        = (some { Method := "GET", URL := some (whisk "whisk.com" "/api/v1/triggers"),
                  Body := none }, none)
      ∧ (urlClient (whisk "whisk.com" "/api/v1/")).NewRequest plainLib marshalPlain "GET"
          "/actions/../rules" none
        = (some { Method := "GET", URL := some (whisk "whisk.com" "/rules"), Body := none }, none)
      ∧ (urlClient (whisk "whisk.com" "")).NewRequest plainLib marshalPlain "NO GOOD" "/actions"
          (some "hi") = (none, some (.other "net/http: invalid method")) := by
  decide

end

end client
